import Mathlib

/-!
Verification development for the 6502 cross-assembler
(`src/lexer.rs`, `src/parser.rs`, `src/ast.rs`, `src/linker.rs`, `src/asm.rs`).

Conventions of the shallow embedding:
* machine integers (`u8`, `u16`, `i16`, `usize`) are modelled as `Nat`/`Int`
  with explicit `% 256` / `% 65536` wrapping where the source wraps
  (release-mode two's-complement semantics, which the design document calls
  "acceptable and expected" for the displacement arithmetic);
* fallible code returns `Option`: `none` models a Rust `panic!` / `unwrap`
  failure, i.e. a fatal abort of the compilation;
* an out-of-bounds slice index in the lexer is modelled as a distinguished
  `crash` outcome, separate from the typed `Err` results the lexer returns.
-/

set_option linter.unusedVariables false

namespace Asm6502

/-! ### Tokens (lexer.rs lines 1-44) -/

inductive Symbol where
  | lpar | rpar | newLine | semiColon | coma | colon | hashTag
  deriving DecidableEq, Repr

inductive Token where
  | symbol (s : Symbol)
  | text (s : String)
  | decimal (n : ℕ)
  | hexa8 (n : ℕ)
  | hexa16 (n : ℕ)
  | binary (n : ℕ)
  | eof
  deriving DecidableEq, Repr

inductive TokenType where
  | symbol | text | decimal | hexa8 | hexa16 | binary | eof
  deriving DecidableEq, Repr

def get_token_type : Token → TokenType
  | .symbol _ => .symbol
  | .text _ => .text
  | .decimal _ => .decimal
  | .hexa8 _ => .hexa8
  | .hexa16 _ => .hexa16
  | .binary _ => .binary
  | .eof => .eof

/-! ### Lexer state and results (lexer.rs lines 46-58) -/

structure Lexer where
  text : List Char
  position : ℕ
  deriving DecidableEq, Repr

/-- Outcome of one `get_next_token` call: an `Ok(token)` with the mutated
lexer, an `Err(message)` with the mutated lexer (the source advances the
cursor before returning the error too), or a `crash` modelling a Rust panic
from an out-of-bounds index into the character vector. -/
inductive LexResult where
  | ok (t : Token) (l : Lexer)
  | err (msg : String) (l : Lexer)
  | crash
  deriving DecidableEq, Repr

/-- Whitespace-skip loop at the top of `get_next_token` (lexer.rs 64-66):
`while (text[position] == ' ') | (text[position] == '\t') { position += 1 }`.
The loop is phrased structurally over the text suffix starting at the cursor
(`suffix = text.drop pos`, so reading `text[pos]` with the cursor past the
end — which the source does without a bounds check — is the `[]` case, an
out-of-bounds panic modelled by `none`).  On success returns the cursor and
the (non-blank) character found there. -/
def skip_ws_loop (suffix : List Char) (pos : ℕ) : Option (ℕ × Char) :=
  match suffix with
  | [] => none
  | c :: rest => if c == ' ' || c == '\t' then skip_ws_loop rest (pos + 1)
                 else some (pos, c)

def skip_ws (text : List Char) (pos : ℕ) : Option (ℕ × Char) :=
  skip_ws_loop (text.drop pos) pos

/-- Body of the `while predicate(current_char)` loop of `Lexer::parse_if`
(lexer.rs 132-141), carrying the accumulated characters.  `c` is the current
character (`text[pos]`) and `rest` the suffix after it (`text.drop (pos+1)`);
under that invariant `rest = []` is exactly the source's
`position == text.len() - 1` break check, taken after pushing the current
character and before the next read, so the loop itself never reads out of
bounds. -/
def parse_if_loop (pred : Char → Bool) (c : Char) (rest : List Char) (pos : ℕ)
    (res : List Char) : List Char × ℕ :=
  if pred c then
    let res' := res ++ [c]
    match rest with
    | [] => (res', pos)
    | c' :: rest' => parse_if_loop pred c' rest' (pos + 1) res'
  else (res, pos)

/-- `Lexer::parse_if` (lexer.rs 128-146): reads `text[position]` (panic when
out of bounds, e.g. a lone `$` at the end of input), runs the greedy loop,
then backs the cursor up one place when it stopped strictly before the last
character.  The `position -= 1` is a `usize` subtraction; underflow at
position 0 is modelled as a crash. -/
def parse_if (pred : Char → Bool) (text : List Char) (pos : ℕ) :
    Option (List Char × ℕ) :=
  match text[pos]? with
  | none => none
  | some c =>
    match parse_if_loop pred c (text.drop (pos + 1)) pos [] with
    | (res, pos') =>
      if pos' < text.length - 1 then
        if pos' = 0 then none else some (res, pos' - 1)
      else some (res, pos')

/-! Numeric value helpers, mirroring `u8::from_str_radix` /
`u16::from_str_radix` / `str::parse::<u8>` on the digit strings the lexer
collects. -/

def hex_digit (c : Char) : Bool :=
  ('0' ≤ c && c ≤ '9') || ('a' ≤ c && c ≤ 'f') || ('A' ≤ c && c ≤ 'F')

def hex_digit_val (c : Char) : ℕ :=
  if '0' ≤ c ∧ c ≤ '9' then c.toNat - 48
  else if 'a' ≤ c ∧ c ≤ 'f' then c.toNat - 87
  else c.toNat - 55

def hex_val (ds : List Char) : ℕ := ds.foldl (fun a c => 16 * a + hex_digit_val c) 0

def bin_val (ds : List Char) : ℕ := ds.foldl (fun a c => 2 * a + (c.toNat - 48)) 0

def dec_val (ds : List Char) : ℕ := ds.foldl (fun a c => 10 * a + (c.toNat - 48)) 0

/-- `Lexer::parse_text` (lexer.rs 95-98).  The source predicate is
`char::is_alphabetic`; the model restricts it to ASCII letters
(`Char.isAlpha`), which coincides on every character this development
evaluates. -/
def parse_text (text : List Char) (pos : ℕ) : Option (Except String Token × ℕ) :=
  match parse_if Char.isAlpha text pos with
  | none => none
  | some (res, pos') => some (.ok (.text (String.mk res)), pos')

/-- `Lexer::parse_decimal` (lexer.rs 100-107); `parse::<u8>` succeeds exactly
when the collected digit string denotes a value of at most 255. -/
def parse_decimal (text : List Char) (pos : ℕ) : Option (Except String Token × ℕ) :=
  match parse_if Char.isDigit text pos with
  | none => none
  | some (res, pos') =>
    if dec_val res ≤ 255 then some (.ok (.decimal (dec_val res)), pos')
    else some (.error ("decimal value overflow " ++ String.mk res), pos')

/-- `Lexer::parse_hexa` (lexer.rs 109-117): skip the `$`, collect the maximal
run of hex digits, classify by digit count (1-2 an 8-bit token, 3-4 a 16-bit
token, anything else a lexical error). -/
def parse_hexa (text : List Char) (pos : ℕ) : Option (Except String Token × ℕ) :=
  match parse_if hex_digit text (pos + 1) with
  | none => none
  | some (res, pos') =>
    if 1 ≤ res.length ∧ res.length ≤ 2 then some (.ok (.hexa8 (hex_val res)), pos')
    else if 3 ≤ res.length ∧ res.length ≤ 4 then
      some (.ok (.hexa16 (hex_val res)), pos')
    else
      some (.error ("Hexadecimal litteral has unexpected size : " ++ String.mk res), pos')

/-- `Lexer::parse_binary` (lexer.rs 119-126). -/
def parse_binary (text : List Char) (pos : ℕ) : Option (Except String Token × ℕ) :=
  match parse_if (fun c => c == '0' || c == '1') text (pos + 1) with
  | none => none
  | some (res, pos') =>
    if 1 ≤ res.length ∧ res.length ≤ 8 then some (.ok (.binary (bin_val res)), pos')
    else some (.error ("Binary litteral has unexpected size : " ++ String.mk res), pos')

/-- `Lexer::skip_comment` (lexer.rs 90-93): advance past the semicolon and
consume to the next newline. -/
def skip_comment (text : List Char) (pos : ℕ) : Option ℕ :=
  match parse_if (fun c => !(c == '\n')) text (pos + 1) with
  | none => none
  | some (_, pos') => some pos'

/-- Dispatch characters of `get_next_token`'s `'a'..='z' | 'A'..='Z' | '.' | '='`
match arm (lexer.rs 80). -/
def is_text_start (c : Char) : Bool :=
  ('a' ≤ c && c ≤ 'z') || ('A' ≤ c && c ≤ 'Z') || c == '.' || c == '='

/-- `Lexer::get_next_token` (lexer.rs 60-88).  Returns `Eof` immediately
(without touching the cursor) when the cursor is at or past the end; otherwise
skips blanks, dispatches on the current character, and finally advances the
cursor by one — also on the `Err` path, as in the source. -/
def get_next_token (l : Lexer) : LexResult :=
  if l.position ≥ l.text.length then .ok .eof l
  else
    match skip_ws l.text l.position with
    | none => .crash
    | some (pos, c) =>
      let step : Option (Except String Token × ℕ) :=
        if c = '(' then some (.ok (.symbol .lpar), pos)
        else if c = ')' then some (.ok (.symbol .rpar), pos)
        else if c = '\n' then some (.ok (.symbol .newLine), pos)
        else if c = ';' then
          match skip_comment l.text pos with
          | none => none
          | some pos' => some (.ok (.symbol .semiColon), pos')
        else if c = ':' then some (.ok (.symbol .colon), pos)
        else if c = ',' then some (.ok (.symbol .coma), pos)
        else if c = '#' then some (.ok (.symbol .hashTag), pos)
        else if is_text_start c then parse_text l.text pos
        else if c.isDigit then parse_decimal l.text pos
        else if c = '$' then parse_hexa l.text pos
        else if c = '%' then parse_binary l.text pos
        else some (.error ("Unknown char : " ++ c.toString), pos)
      match step with
      | none => .crash
      | some (.ok t, pos') => .ok t ⟨l.text, pos' + 1⟩
      | some (.error m, pos') => .err m ⟨l.text, pos' + 1⟩

/-- Token part of a lexing outcome (discards the mutated lexer). -/
def lex_token : LexResult → Option Token
  | .ok t _ => some t
  | _ => none

/-- Whether a lexing outcome is a typed `Err` (a lexical error, not a crash). -/
def lex_is_err : LexResult → Bool
  | .err _ _ => true
  | _ => false

/-! ### Addressing modes and the external instruction-set lookup -/

/-- Modelled from the spec: the addressing-mode enumeration of the external
`instruction` module, which is not part of the core sources.  Its variants
are those named by the design document (§3, "Addressing Mode") and consumed
by `ast.rs` and `linker.rs`. -/
inductive Mode where
  | implicit | accumulator | immediate
  | zeroPage | zeroPageX | zeroPageY
  | absolute | absoluteX | absoluteY
  | indirect | indirectX | indirectY
  | relative
  deriving DecidableEq, Repr

/-- Modelled from the spec: the record returned by the external
instruction-set lookup (§6): an opcode byte, an encoded length of 1 to 3
bytes, and the addressing mode.  The fields are those the core sources read
(`instruction.opcode`, `instruction.len`, `instruction.mode`). -/
structure Instruction where
  opcode : ℕ
  len : ℕ
  mode : Mode
  deriving DecidableEq, Repr

/-- Modelled from the spec: the external instruction-set lookup
`get_instruction(mnemonic, mode)` (§6), a pure function that is fatal
(`none`) when the pair is undefined.  The core treats it as an injected
dependency, so the development quantifies over it. -/
def ISet : Type := String → Mode → Option Instruction

/-! ### AST (ast.rs) -/

/-- The AST of ast.rs.  The `accumulator` variant is the `Ast::Accumulator`
node constructed by `Parser::label` (parser.rs 128). -/
inductive Ast where
  | statements (stmts : List Ast)
  | instruction (mnemonic : String) (args : Option Ast)
  | label (name : String)
  | number8 (n : ℕ)
  | absolute (addr : ℕ)
  | zeroPage (addr : ℕ)
  | absoluteIndirect (addr : ℕ)
  | asoluteIndexed (addr : ℕ) (reg : Char)
  | zeroPageIndexed (addr : ℕ) (reg : Char)
  | indirectX (addr : ℕ)
  | indirectY (addr : ℕ)
  | accumulator

/-- `get_addresing_mode` (ast.rs 21-46): pure derivation of the addressing
mode from the shape of the (optional) operand node.  Every `panic!` arm —
an unknown register tag or a node with no derivation arm, which includes
`Ast::Accumulator` — is `none`. -/
def get_addresing_mode : Option Ast → Option Mode
  | none => some .implicit
  | some a =>
    match a with
    | .absolute _ => some .absolute
    | .absoluteIndirect _ => some .indirect
    | .indirectX _ => some .indirectX
    | .indirectY _ => some .indirectY
    | .zeroPage _ => some .zeroPage
    | .asoluteIndexed _ reg =>
      if reg = 'x' ∨ reg = 'X' then some .absoluteX
      else if reg = 'y' ∨ reg = 'Y' then some .absoluteY
      else none
    | .zeroPageIndexed _ reg =>
      if reg = 'x' ∨ reg = 'X' then some .zeroPageX
      else if reg = 'y' ∨ reg = 'Y' then some .zeroPageY
      else none
    | .label _ => some .relative
    | .number8 _ => some .immediate
    | _ => none

/-! ### Linker (linker.rs) -/

/-- `Linker` (linker.rs 4-7).  The `HashMap<String, u16>` is modelled as an
association list whose `insert` conses in front and whose lookup takes the
first match, which reproduces the map's overwrite-on-insert semantics. -/
structure Linker where
  labels_indexes : List (String × ℕ)
  program_counter : ℕ
  deriving DecidableEq, Repr

mutual

/-- `Linker::index` (linker.rs 17-37): first pass.  Binds each label to the
current counter, advances the counter by the looked-up encoded length for
each instruction (fatal when the mode derivation or the lookup fails), and
ignores every other node (`_ => {}`).  The `u16` counter wraps mod 65536. -/
def index (iset : ISet) : Ast → Linker → Option Linker
  | .statements stmts, st => index_list iset stmts st
  | .label l, st =>
    some ⟨(l, st.program_counter) :: st.labels_indexes, st.program_counter⟩
  | .instruction i a, st =>
    match get_addresing_mode a with
    | none => none
    | some m =>
      match iset i m with
      | none => none
      | some instr =>
        some ⟨st.labels_indexes, (st.program_counter + instr.len) % 65536⟩
  | _, st => some st

/-- Iteration of `Linker::index` over a statement vector (linker.rs 19-23). -/
def index_list (iset : ISet) : List Ast → Linker → Option Linker
  | [], st => some st
  | a :: as', st =>
    match index iset a st with
    | none => none
    | some st' => index_list iset as' st'

end

/-- `u16::to_le_bytes` (used at linker.rs 60 and asm.rs 62/67/70): the 16-bit
value in little-endian order, low byte first. -/
def to_le_bytes (addr : ℕ) : List ℕ := [addr % 256, addr / 256 % 256]

/-- `u16 as i16` reinterpretation of a (wrapped) 16-bit value as a signed
16-bit integer. -/
def u16_as_i16 (n : ℕ) : ℤ :=
  if n % 65536 < 32768 then (n % 65536 : ℤ) else (n % 65536 : ℤ) - 65536

/-- Two's-complement wrap of an integer into the signed 16-bit range,
modelling release-mode `i16` subtraction overflow. -/
def wrap_i16 (z : ℤ) : ℤ := (z + 32768) % 65536 - 32768

/-- `Linker::link` (linker.rs 43-69), using the lookup in `Linker::get`
(linker.rs 39-41) whose `.unwrap()` on an absent label is fatal (`none`).
Relative mode follows the source line by line with wrapping (release-mode)
arithmetic: `offset = |label_index as i16 - pc as i16|` truncated to `u8`
(`i16::abs` of `i16::MIN` and the final `as u8` truncation agree mod 256
with `Int.natAbs`), negated with `u8::wrapping_neg` when the label address
is below the program counter, and the pushed byte is the wrapping `u8`
subtraction `offset - instruction.len`.  Absolute mode emits the label's
address little-endian; any other mode is a fatal internal error. -/
def link (labels : List (String × ℕ)) (label : String) (instr : Instruction)
    (asm_program_counter : ℕ) : Option (List ℕ) :=
  match labels.lookup label with
  | none => none
  | some label_index =>
    match instr.mode with
    | .relative =>
      let d := wrap_i16 (u16_as_i16 label_index - u16_as_i16 asm_program_counter)
      let offset0 := d.natAbs % 256
      let offset := if label_index < asm_program_counter
                    then (256 - offset0) % 256 else offset0
      some [(offset + (256 - instr.len % 256)) % 256]
    | .absolute => some (to_le_bytes label_index)
    | _ => none

/-! ### Code generator (asm.rs) -/

/-- Mutable state of `Asm` during `visit`: the emitted bytes and the code
generator's own location counter (asm.rs 6-11; the parser and linker fields
are passed explicitly). -/
structure AsmSt where
  program : List ℕ
  program_counter : ℕ
  deriving DecidableEq, Repr

/-- `Asm::get_args_bytes` (asm.rs 54-93): operand bytes for an instruction,
from the operand node's concrete variant; a label operand is delegated to
`Linker::link` with the current location counter; any other node is a fatal
error. -/
def get_args_bytes (labels : List (String × ℕ)) (args : Option Ast)
    (instr : Instruction) (program_counter : ℕ) : Option (List ℕ) :=
  match args with
  | none => some []
  | some a =>
    match a with
    | .absolute address16 => some (to_le_bytes address16)
    | .zeroPage address8 => some [address8]
    | .absoluteIndirect address16 => some (to_le_bytes address16)
    | .asoluteIndexed address16 _ => some (to_le_bytes address16)
    | .zeroPageIndexed address8 _ => some [address8]
    | .indirectX address8 => some [address8]
    | .indirectY address8 => some [address8]
    | .label l => link labels l instr program_counter
    | .number8 number => some [number]
    | _ => none

mutual

/-- `Asm::visit` (asm.rs 30-52): second pass.  For an instruction, derives
the mode, looks up the instruction, computes the operand bytes (before
anything is emitted — a failure there aborts with nothing appended), then
appends opcode and operand bytes and advances the wrapped `u16` counter by
the encoded length.  Labels emit nothing; any other node is fatal. -/
def visit (iset : ISet) (labels : List (String × ℕ)) : Ast → AsmSt → Option AsmSt
  | .statements stmts, st => visit_list iset labels stmts st
  | .instruction i a, st =>
    match get_addresing_mode a with
    | none => none
    | some m =>
      match iset i m with
      | none => none
      | some instr =>
        match get_args_bytes labels a instr st.program_counter with
        | none => none
        | some arg =>
          some ⟨st.program ++ instr.opcode :: arg,
                (st.program_counter + instr.len) % 65536⟩
  | .label _, st => some st
  | _, _ => none

/-- Iteration of `Asm::visit` over a statement vector (asm.rs 32-36). -/
def visit_list (iset : ISet) (labels : List (String × ℕ)) :
    List Ast → AsmSt → Option AsmSt
  | [], st => some st
  | a :: as', st =>
    match visit iset labels a st with
    | none => none
    | some st' => visit_list iset labels as' st'

end

/-! ### Parser (parser.rs)

The parser pulls tokens from the lexer one at a time
(`self.lexer.get_next_token().unwrap()`); the embedding works over the token
stream as a list, with the convention — faithful to the lexer, whose cursor
never moves once past the end — that an exhausted stream keeps yielding
`Eof`.  Every `panic!` (including a failed `eat`/`eat_type`) is `none`. -/

/-- Parser state: the one-token lookahead (`current_token`) and the rest of
the token stream. -/
structure PState where
  current : Token
  rest : List Token
  deriving DecidableEq, Repr

/-- Load the lookahead from a token stream (also `Parser::new`, parser.rs
10-17, which pulls the first token). -/
def init_p : List Token → PState
  | [] => ⟨.eof, []⟩
  | t :: ts => ⟨t, ts⟩

/-- Pull the next token into the lookahead (`get_next_token` after a
successful `eat`). -/
def advance_p (st : PState) : PState := init_p st.rest

/-- `Parser::eat` (parser.rs 238-249): consume the lookahead when it equals
the expected token, fatal otherwise. -/
def eat (tok : Token) (st : PState) : Option (Token × PState) :=
  if st.current = tok then some (st.current, advance_p st) else none

/-- `Parser::eat_type` (parser.rs 251-262): consume the lookahead when its
type matches, fatal otherwise. -/
def eat_type (tt : TokenType) (st : PState) : Option (Token × PState) :=
  if get_token_type st.current = tt then some (st.current, advance_p st)
  else none

/-- `Parser::comment` (parser.rs 84-86): just eats the semicolon (the comment
text was already consumed by the lexer). -/
def comment (st : PState) : Option PState :=
  match eat (.symbol .semiColon) st with
  | none => none
  | some (_, st') => some st'

/-- `Parser::number` (parser.rs 113-122): a decimal, binary or 8-bit hex
token becomes `Ast::Number8`; anything else is fatal.  (The `eat_type` that
follows in the source consumes the very token just matched, so it always
succeeds.) -/
def number (st : PState) : Option (Ast × PState) :=
  match st.current with
  | .decimal d => some (.number8 d, advance_p st)
  | .binary b => some (.number8 b, advance_p st)
  | .hexa8 h => some (.number8 h, advance_p st)
  | _ => none

/-- `Parser::immediate` (parser.rs 107-110): hash sign then a number. -/
def immediate (st : PState) : Option (Ast × PState) :=
  match eat (.symbol .hashTag) st with
  | none => none
  | some (_, st') => number st'

/-- `Parser::label` (parser.rs 125-136): eats a text token; the bare texts
`"A"` and `"a"` become `Ast::Accumulator`, anything else a label
reference. -/
def label (st : PState) : Option (Ast × PState) :=
  match eat_type .text st with
  | some (.text t, st') =>
    if t = "A" ∨ t = "a" then some (.accumulator, st')
    else some (.label t, st')
  | _ => none

/-- `Parser::absolute` (parser.rs 139-159): a 16-bit hex token, optionally
followed by a comma and an `x`/`X`/`y`/`Y` register tag (first character of
the tag text is stored); a different tag is fatal. -/
def absolute (st : PState) : Option (Ast × PState) :=
  match eat_type .hexa16 st with
  | some (.hexa16 h, st') =>
    if st'.current = .symbol .coma then
      match eat_type .text (advance_p st') with
      | some (.text t, st'') =>
        if t = "x" ∨ t = "X" ∨ t = "y" ∨ t = "Y" then
          some (.asoluteIndexed h (t.toList.headD ' '), st'')
        else none
      | _ => none
    else some (.absolute h, st')
  | _ => none

/-- `Parser::zero_page` (parser.rs 162-182): the 8-bit analogue of
`absolute`. -/
def zero_page (st : PState) : Option (Ast × PState) :=
  match eat_type .hexa8 st with
  | some (.hexa8 h, st') =>
    if st'.current = .symbol .coma then
      match eat_type .text (advance_p st') with
      | some (.text t, st'') =>
        if t = "x" ∨ t = "X" ∨ t = "y" ∨ t = "Y" then
          some (.zeroPageIndexed h (t.toList.headD ' '), st'')
        else none
      | _ => none
    else some (.zeroPage h, st')
  | _ => none

/-- `Parser::absolute_indirect` (parser.rs 195-203): 16-bit hex then a
closing parenthesis. -/
def absolute_indirect (st : PState) : Option (Ast × PState) :=
  match eat_type .hexa16 st with
  | some (.hexa16 h, st') =>
    match eat (.symbol .rpar) st' with
    | none => none
    | some (_, st'') => some (.absoluteIndirect h, st'')
  | _ => none

/-- Model of `str::to_uppercase` as used for the one-character register tags
(Rust's Unicode uppercasing agrees with per-character ASCII uppercasing on
every tag the grammar admits). -/
def to_uppercase (s : String) : String := String.mk (s.toList.map Char.toUpper)

/-- `Parser::zero_page_indirect` (parser.rs 206-236): 8-bit hex, then either
`) , Y` (indirect-indexed-by-Y) or `, X )` (indirect-indexed-by-X); the
register-tag comparison is on the upper-cased text. -/
def zero_page_indirect (st : PState) : Option (Ast × PState) :=
  match eat_type .hexa8 st with
  | some (.hexa8 h, st') =>
    match eat_type .symbol st' with
    | some (.symbol .rpar, st'') =>
      match eat (.symbol .coma) st'' with
      | none => none
      | some (_, st3) =>
        match eat_type .text st3 with
        | some (.text t, st4) =>
          if to_uppercase t = "Y" then some (.indirectY h, st4) else none
        | _ => none
    | some (.symbol .coma, st'') =>
      match eat_type .text st'' with
      | some (.text t, st3) =>
        if to_uppercase t = "X" then
          match eat (.symbol .rpar) st3 with
          | none => none
          | some (_, st4) => some (.indirectX h, st4)
        else none
      | _ => none
    | _ => none
  | _ => none

/-- `Parser::indirect` (parser.rs 185-192): open parenthesis, then the 16- or
8-bit indirect form by lookahead. -/
def indirect (st : PState) : Option (Ast × PState) :=
  match eat (.symbol .lpar) st with
  | none => none
  | some (_, st') =>
    match st'.current with
    | .hexa16 _ => absolute_indirect st'
    | .hexa8 _ => zero_page_indirect st'
    | _ => none

/-- `Parser::arg` (parser.rs 89-104): operand dispatch on the lookahead's
type. -/
def arg (st : PState) : Option (Ast × PState) :=
  match get_token_type st.current with
  | .hexa16 => absolute st
  | .hexa8 => zero_page st
  | .symbol =>
    match st.current with
    | .symbol .lpar => indirect st
    | .symbol .hashTag => immediate st
    | _ => none
  | .text => label st
  | _ => none

/-- The token shapes of the operand-start match arm in `Parser::statement`
(parser.rs 56-62): a number, an open parenthesis, a hash, or a text. -/
def is_arg_start : Token → Bool
  | .binary _ | .decimal _ | .hexa16 _ | .hexa8 _ => true
  | .symbol .lpar | .symbol .hashTag => true
  | .text _ => true
  | _ => false

/-- `Parser::statement` (parser.rs 45-81): a leading semicolon is a
comment-only line and yields no node; otherwise a text token is eaten, a
following colon makes it a label declaration, an operand-start token makes it
an instruction with an operand, anything else an operand-less instruction;
a trailing semicolon (comment) is then consumed.  Any other leading token is
a fatal parse error. -/
def statement (st : PState) : Option (Option Ast × PState) :=
  if st.current = .symbol .semiColon then
    match comment st with
    | none => none
    | some st' => some (none, st')
  else
    match eat_type .text st with
    | none => none
    | some (token, st') =>
      let step : Option (Bool × Option Ast × PState) :=
        if st'.current = .symbol .colon then
          match eat (.symbol .colon) st' with
          | none => none
          | some (_, st'') => some (true, none, st'')
        else if is_arg_start st'.current then
          match arg st' with
          | none => none
          | some (a, st'') => some (false, some a, st'')
        else some (false, none, st')
      match step with
      | none => none
      | some (is_label, a, st'') =>
        match token with
        | .text t =>
          let ast := if is_label then Ast.label t else Ast.instruction t a
          if st''.current = .symbol .semiColon then
            match comment st'' with
            | none => none
            | some st3 => some (some ast, st3)
          else some (some ast, st'')
        | _ => none

/-- `Parser::statements` (parser.rs 26-42).  The loop condition captures the
token type once, before the loop, and never updates it (the source even
carries a `#[deny(clippy::while_immutable_condition)]`), so it is passed in
frozen as `tt`.  Each iteration runs `statement`, then either eats a newline
and loops, eats `Eof` and breaks, or loops immediately.  The `while` loop of
the source is given an explicit iteration budget `fuel`; exhausting it
models non-termination (`none`). -/
def statements_aux (fuel : ℕ) (tt : TokenType) (acc : List Ast) (st : PState) :
    Option (List Ast × PState) :=
  match fuel with
  | 0 => none
  | n + 1 =>
    if tt = .text ∨ tt = .symbol then
      match statement st with
      | none => none
      | some (optAst, st') =>
        let acc' := acc ++ optAst.toList
        if st'.current = .symbol .newLine then
          statements_aux n tt acc' (advance_p st')
        else if st'.current = .eof then some (acc', advance_p st')
        else statements_aux n tt acc' st'
    else some (acc, st)

/-- `Parser::parse` over a token stream: run `statements` from the initial
lookahead and return the statement list (`Ast::Statements` payload). -/
def parse_tokens (ts : List Token) : Option (List Ast) :=
  let st := init_p ts
  match statements_aux (ts.length + 2) (get_token_type st.current) [] st with
  | none => none
  | some (stmts, _) => some stmts

/-! ### Label-declaration predicate (used to state the duplicate-label claim) -/

mutual

/-- Whether an AST node declares the label `lbl` (an `Ast::Label` statement,
possibly nested inside `Ast::Statements`). -/
def declares (lbl : String) : Ast → Bool
  | .statements stmts => declares_list lbl stmts
  | .label l => l == lbl
  | _ => false

/-- List form of `declares`. -/
def declares_list (lbl : String) : List Ast → Bool
  | [] => false
  | a :: as' => declares lbl a || declares_list lbl as'

end

/-! ### Shared concrete instruction-set lookup for witnesses -/

/-- A small concrete instruction-set lookup used by the witness theorems
(an arbitrary but well-formed instance of the external dependency). -/
def iset0 : ISet := fun i _ =>
  if i = "NOP" then some ⟨0xEA, 1, .implicit⟩
  else if i = "BNE" then some ⟨0xD0, 2, .relative⟩
  else if i = "JMP" then some ⟨0x4C, 3, .absolute⟩
  else none

/-! ### Claim C10 -/

/-- Claim C10: once the cursor is at or past the end of the source — the
only situation in which `get_next_token` returns the end-of-input marker —
every call returns `Eof` again and leaves the lexer (in particular its
cursor) completely unchanged. -/
theorem C10_eof_is_absorbing (l : Lexer) (h : l.position ≥ l.text.length) :
    get_next_token l = .ok .eof l := by
  simp [get_next_token, h]

/-- Witness for C10 at a concrete exhausted lexer. -/
theorem C10_eof_is_absorbing_witness :
    get_next_token ⟨"ab".toList, 2⟩ = .ok .eof ⟨"ab".toList, 2⟩ :=
  C10_eof_is_absorbing ⟨"ab".toList, 2⟩ (by decide)

/-! ### Claim C8 -/

/-- Claim C8 (refuted, code bug): the lexer does NOT always return a token
or a typed lexical error.  On a source consisting of a single blank the
whitespace-skip loop indexes past the end of the text; on a lone `$` or `%`
the greedy literal scanner's initial read is past the end; and after lexing
`"a  "`'s text token, the next call crashes in the whitespace loop.  Each of
these is an out-of-bounds panic (`crash`), not a lexical error. -/
theorem C8_lexer_crashes_on_trailing_blank_and_lone_sigils :
    get_next_token ⟨" ".toList, 0⟩ = .crash
  ∧ get_next_token ⟨"$".toList, 0⟩ = .crash
  ∧ get_next_token ⟨"%".toList, 0⟩ = .crash
  ∧ get_next_token ⟨"a  ".toList, 0⟩ = .ok (.text "a") ⟨"a  ".toList, 1⟩
  ∧ get_next_token ⟨"a  ".toList, 1⟩ = .crash := by
  refine ⟨by decide, by decide, by decide, by decide, by decide⟩

/-! ### Claim C3 -/

/-- Claim C3: every absolute 16-bit operand — plain, indexed, or
absolute-indirect — and every label resolved in Absolute mode emits exactly
the two little-endian bytes of the address (low byte first). -/
theorem C3_absolute_operands_little_endian (addr : ℕ) (h : addr < 65536)
    (instr : Instruction) (pc : ℕ) (reg : Char) (labels : List (String × ℕ))
    (lbl : String) :
    get_args_bytes labels (some (.absolute addr)) instr pc
      = some [addr % 256, addr / 256]
  ∧ get_args_bytes labels (some (.absoluteIndirect addr)) instr pc
      = some [addr % 256, addr / 256]
  ∧ get_args_bytes labels (some (.asoluteIndexed addr reg)) instr pc
      = some [addr % 256, addr / 256]
  ∧ (labels.lookup lbl = some addr → instr.mode = .absolute →
      link labels lbl instr pc = some [addr % 256, addr / 256]) := by
  have hd : addr / 256 % 256 = addr / 256 := by omega
  refine ⟨?_, ?_, ?_, ?_⟩
  · simp [get_args_bytes, to_le_bytes, hd]
  · simp [get_args_bytes, to_le_bytes, hd]
  · simp [get_args_bytes, to_le_bytes, hd]
  · intro hl hm
    simp [link, hl, hm, to_le_bytes, hd]

/-- Witness for C3 at the spec's own example address `0xAABB`, which must
emit `[0xBB, 0xAA]`. -/
theorem C3_absolute_operands_little_endian_witness :
    get_args_bytes [("l", 0xAABB)] (some (.absolute 0xAABB)) ⟨0x4C, 3, .absolute⟩ 0
      = some [0xBB, 0xAA]
  ∧ link [("l", 0xAABB)] "l" ⟨0x4C, 3, .absolute⟩ 0 = some [0xBB, 0xAA] := by
  have h := C3_absolute_operands_little_endian 0xAABB (by decide)
    ⟨0x4C, 3, .absolute⟩ 0 'X' [("l", 0xAABB)] "l"
  exact ⟨h.1, h.2.2.2 (by decide) rfl⟩

/-! ### Claim C4 -/

/-- Claim C4: resolving a label reference whose name is not in the symbol
table is fatal — `Linker::get`'s unwrap aborts — so `link`, the operand-byte
computation, and the whole code-generation visit of such an instruction all
fail, and since `Asm::visit` computes the operand bytes before pushing
anything, no opcode, placeholder or partial operand byte is appended to the
output; there is no fallback resolution. -/
theorem C4_undefined_label_is_fatal (labels : List (String × ℕ)) (lbl : String)
    (h : labels.lookup lbl = none) (instr : Instruction) (pc : ℕ) (iset : ISet)
    (i : String) (st : AsmSt) :
    link labels lbl instr pc = none
  ∧ get_args_bytes labels (some (.label lbl)) instr pc = none
  ∧ visit iset labels (.instruction i (some (.label lbl))) st = none := by
  refine ⟨?_, ?_, ?_⟩
  · simp [link, h]
  · simp [get_args_bytes, link, h]
  · simp only [visit, get_addresing_mode]
    cases iset i .relative with
    | none => rfl
    | some instr' => simp [get_args_bytes, link, h]

/-- Witness for C4 on an empty symbol table. -/
theorem C4_undefined_label_is_fatal_witness :
    link [] "missing" ⟨0xD0, 2, .relative⟩ 0 = none
  ∧ get_args_bytes [] (some (.label "missing")) ⟨0xD0, 2, .relative⟩ 0 = none
  ∧ visit iset0 [] (.instruction "BNE" (some (.label "missing"))) ⟨[], 0⟩ = none :=
  C4_undefined_label_is_fatal [] "missing" (by decide) ⟨0xD0, 2, .relative⟩ 0
    iset0 "BNE" ⟨[], 0⟩

/-! ### Claim C9 -/

/-- Claim C9: a bare operand token `"A"` or `"a"` is parsed (through
`Parser::arg`'s text branch, `Parser::label`) into the accumulator operand
node, not a label reference — any other text becomes a label reference —
while the addressing-mode derivation has no arm for that node, so deriving
a mode for it (and hence indexing or code-generating an instruction carrying
it) is a fatal error. -/
theorem C9_accumulator_operand_is_dead_end :
    (∀ rest : List Token, label ⟨.text "A", rest⟩ = some (.accumulator, init_p rest))
  ∧ (∀ rest : List Token, label ⟨.text "a", rest⟩ = some (.accumulator, init_p rest))
  ∧ (∀ rest : List Token, arg ⟨.text "A", rest⟩ = some (.accumulator, init_p rest))
  ∧ (∀ (t : String) (rest : List Token), t ≠ "A" → t ≠ "a" →
      label ⟨.text t, rest⟩ = some (.label t, init_p rest))
  ∧ get_addresing_mode (some .accumulator) = none
  ∧ (∀ (iset : ISet) (i : String) (lst : Linker),
      index iset (.instruction i (some .accumulator)) lst = none)
  ∧ (∀ (iset : ISet) (labels : List (String × ℕ)) (i : String) (st : AsmSt),
      visit iset labels (.instruction i (some .accumulator)) st = none) := by
  refine ⟨?_, ?_, ?_, ?_, rfl, ?_, ?_⟩
  · intro rest; rfl
  · intro rest; rfl
  · intro rest; rfl
  · intro t rest h1 h2
    simp [label, eat_type, get_token_type, advance_p, h1, h2]
  · intro iset i lst; simp [index, get_addresing_mode]
  · intro iset labels i st; simp [visit, get_addresing_mode]

/-- Witness for C9 at the concrete operand texts and an instruction carrying
the accumulator node. -/
theorem C9_accumulator_operand_is_dead_end_witness :
    label ⟨.text "A", []⟩ = some (.accumulator, ⟨.eof, []⟩)
  ∧ label ⟨.text "a", []⟩ = some (.accumulator, ⟨.eof, []⟩)
  ∧ label ⟨.text "LSR", []⟩ = some (.label "LSR", ⟨.eof, []⟩)
  ∧ index iset0 (.instruction "LSR" (some .accumulator)) ⟨[], 0⟩ = none
  ∧ visit iset0 [] (.instruction "LSR" (some .accumulator)) ⟨[], 0⟩ = none := by
  have h := C9_accumulator_operand_is_dead_end
  exact ⟨h.1 [], h.2.1 [], h.2.2.2.1 "LSR" [] (by decide) (by decide),
         h.2.2.2.2.2.1 iset0 "LSR" ⟨[], 0⟩, h.2.2.2.2.2.2 iset0 [] "LSR" ⟨[], 0⟩⟩

/-! ### Claim C7 -/

/-- Claim C7 as stated is refuted: an empty line is NOT accepted by the
parser.  On the token stream of the one-empty-line program `"\n"` the
statement loop enters `Parser::statement` with the newline as lookahead,
which is not a semicolon, so `eat_type(Text)` is called on a newline token
and fails fatally. -/
theorem C7_counterexample_empty_line_rejected :
    parse_tokens [.symbol .newLine, .eof] = none := by rfl

/-- Claim C7 (amended): a line containing only a comment is accepted and
produces no statement node, and only label and instruction lines contribute
statement nodes; an empty line, however, is a fatal parse error (its newline
lookahead fails `eat_type(Text)`) rather than being accepted.  The last
conjunct runs a whole program whose comment-only first line contributes
nothing to the AST. -/
theorem C7_comment_only_lines_no_statement :
    (∀ rest : List Token,
      statement ⟨.symbol .semiColon, rest⟩ = some (none, init_p rest))
  ∧ (∀ (t : String) (rest : List Token),
      (statement ⟨.text t, .symbol .colon :: rest⟩).map Prod.fst
        = some (some (.label t)))
  ∧ (∀ (t : String) (rest : List Token),
      (statement ⟨.text t, .symbol .newLine :: rest⟩).map Prod.fst
        = some (some (.instruction t none)))
  ∧ (∀ rest : List Token, statement ⟨.symbol .newLine, rest⟩ = none)
  ∧ parse_tokens [.symbol .semiColon, .symbol .newLine, .text "NOP", .eof]
      = some [.instruction "NOP" none] := by
  refine ⟨?_, ?_, ?_, ?_, by rfl⟩
  · intro rest; rfl
  · intro t rest
    simp only [statement, comment, eat, eat_type, get_token_type, advance_p, init_p]
    cases rest with
    | nil => rfl
    | cons r rs =>
      by_cases hr : r = .symbol .semiColon
      · subst hr; rfl
      · simp [hr, init_p]
  · intro t rest; rfl
  · intro rest; rfl

/-- Witness for C7's amended statement at a concrete comment-only line and a
concrete label line. -/
theorem C7_comment_only_lines_no_statement_witness :
    statement ⟨.symbol .semiColon, [.symbol .newLine]⟩
      = some (none, ⟨.symbol .newLine, []⟩)
  ∧ (statement ⟨.text "loop", .symbol .colon :: [.eof]⟩).map Prod.fst
      = some (some (.label "loop"))
  ∧ statement ⟨.symbol .newLine, [.eof]⟩ = none := by
  have h := C7_comment_only_lines_no_statement
  exact ⟨h.1 [.symbol .newLine], h.2.1 "loop" [.eof], h.2.2.2.1 [.eof]⟩

/-! ### Claim C1 -/

/-- Claim C1 as stated is refuted: with the branch opcode at address `A = 0`,
encoded length `L = 2`, and the label bound to `T = 0x8001`, the spec formula
`(T − (A + L)) mod 256` gives `255`, but the linker's
`|T as i16 − A as i16|`-with-sign computation reinterprets `T` as the
negative signed value `−32767`, takes its absolute value without negating
(since `T < A` is false on the unsigned values), and emits `253`. -/
theorem C1_counterexample_far_target :
    link [("l", 0x8001)] "l" ⟨0xD0, 2, .relative⟩ 0 = some [253]
  ∧ (253 : ℕ) ≠ (0x8001 - (0 + 2)) % 256 := by
  refine ⟨by decide, by decide⟩

/-- Claim C1 (amended): for a branch instruction with opcode byte at address
`A`, encoded length `L = instr.len`, and the label bound to `T` — all in
16-bit range — the linker emits exactly one displacement byte equal to
`(T − (A + L)) mod 256`, PROVIDED the unsigned distance between `T` and `A`
is at most 32768 (so that the sign of the `i16` difference agrees with the
unsigned comparison `T < A` the source uses); beyond that distance the
emitted byte differs from the spec formula, as the counterexample shows. -/
theorem C1_relative_displacement_amended (labels : List (String × ℕ))
    (lbl : String) (T : ℕ) (instr : Instruction) (A : ℕ)
    (hl : labels.lookup lbl = some T) (hm : instr.mode = .relative)
    (hT : T < 65536) (hA : A < 65536) (hlen : instr.len < 256)
    (hdist : A - T ≤ 32768 ∧ T - A ≤ 32768) :
    link labels lbl instr A
      = some [(((T : ℤ) - (A + instr.len)) % 256).toNat] := by
  simp only [link, hl, hm, u16_as_i16, wrap_i16]
  have h65 : T % 65536 = T := Nat.mod_eq_of_lt hT
  have h65' : A % 65536 = A := Nat.mod_eq_of_lt hA
  rw [h65, h65']
  split_ifs with h1 h2 h3 h2 h3 h3 <;>
    · simp only [Option.some.injEq, List.cons.injEq, and_true]
      omega

/-- Witness for C1's amended statement: a short forward branch from `0x600`
(length 2) to `0x610` emits `0x0E`. -/
theorem C1_relative_displacement_amended_witness :
    link [("l", 0x610)] "l" ⟨0xD0, 2, .relative⟩ 0x600 = some [0x0E] :=
  C1_relative_displacement_amended [("l", 0x610)] "l" 0x610 ⟨0xD0, 2, .relative⟩
    0x600 (by decide) rfl (by decide) (by decide) (by decide) (by decide)

/-! ### Claim C5 -/

/-- One loop iteration when the predicate fails: exit with the accumulator
and the current position. -/
lemma parse_if_loop_neg (pred : Char → Bool) (c : Char) (rest : List Char)
    (pos : ℕ) (res : List Char) (h : pred c = false) :
    parse_if_loop pred c rest pos res = (res, pos) := by
  rw [parse_if_loop.eq_def, h]
  simp

/-- One loop iteration at the last character of the text: push and break. -/
lemma parse_if_loop_last (pred : Char → Bool) (c : Char) (pos : ℕ)
    (res : List Char) (h : pred c = true) :
    parse_if_loop pred c [] pos res = (res ++ [c], pos) := by
  rw [parse_if_loop.eq_def, h]
  simp

/-- One loop iteration with more text ahead: push, advance, re-read. -/
lemma parse_if_loop_step (pred : Char → Bool) (c c' : Char) (rest' : List Char)
    (pos : ℕ) (res : List Char) (h : pred c = true) :
    parse_if_loop pred c (c' :: rest') pos res
      = parse_if_loop pred c' rest' (pos + 1) (res ++ [c]) := by
  rw [parse_if_loop.eq_def, h]
  simp

/-- Run of `parse_if`'s loop over a maximal satisfying run `c :: ds` followed
by `rest` (whose head, if any, fails the predicate): it collects exactly the
run, and stops on the run's last character when nothing follows, one past it
otherwise. -/
lemma parse_if_loop_run (pred : Char → Bool) :
    ∀ (ds : List Char) (c : Char) (rest : List Char) (pos : ℕ) (res : List Char),
    pred c = true → (∀ x ∈ ds, pred x = true) →
    (∀ x, rest.head? = some x → pred x = false) →
    parse_if_loop pred c (ds ++ rest) pos res
      = (res ++ c :: ds, pos + ds.length + (if rest = [] then 0 else 1)) := by
  intro ds
  induction ds with
  | nil =>
    intro c rest pos res h1 _ h3
    cases rest with
    | nil => rw [List.nil_append, parse_if_loop_last pred c pos res h1]; simp
    | cons r rs =>
      have hr := h3 r rfl
      rw [List.nil_append, parse_if_loop_step pred c r rs pos res h1,
        parse_if_loop_neg pred r rs (pos + 1) (res ++ [c]) hr]
      simp
  | cons d ds' ih =>
    intro c rest pos res h1 h2 h3
    have hd : pred d = true := h2 d (by simp)
    have h2' : ∀ x ∈ ds', pred x = true := fun x hx => h2 x (by simp [hx])
    rw [List.cons_append, parse_if_loop_step pred c d (ds' ++ rest) pos res h1,
      ih d rest (pos + 1) (res ++ [c]) hd h2' h3]
    simp
    omega

/-- `Lexer::parse_if` started just after a `$` at the head of the text, on a
maximal predicate run `c :: ds`: it returns exactly the run (the final cursor
position depends on how much text follows and is existential here). -/
lemma parse_if_after_sigil (pred : Char → Bool) (c : Char) (ds rest : List Char)
    (h1 : pred c = true) (h2 : ∀ x ∈ ds, pred x = true)
    (h3 : ∀ x, rest.head? = some x → pred x = false) :
    ∃ p, parse_if pred ('$' :: c :: ds ++ rest) 1 = some (c :: ds, p) := by
  have hrun := parse_if_loop_run pred ds c rest 1 [] h1 h2 h3
  have hidx : ('$' :: c :: ds ++ rest)[1]? = some c := by simp
  have hdrop : ('$' :: c :: ds ++ rest).drop (1 + 1) = ds ++ rest := by simp
  simp only [parse_if, hidx, hdrop, hrun, List.nil_append]
  split_ifs <;> first | exact ⟨_, rfl⟩ | omega | contradiction

/-- Claim C5: lexing a hexadecimal literal — a `$` followed by the maximal
run `c :: ds` of hex digits (whatever follows does not extend the run) —
yields an 8-bit token carrying the literal's value when the run has 1-2
digits, a 16-bit token when it has 3-4 digits, and a typed lexical error for
any longer run; in particular 5 digits fail lexing instead of being
truncated. -/
theorem C5_hex_literal_width_by_digit_count (c : Char) (ds rest : List Char)
    (h1 : hex_digit c = true) (h2 : ∀ x ∈ ds, hex_digit x = true)
    (h3 : ∀ x, rest.head? = some x → hex_digit x = false) :
    ((c :: ds).length ≤ 2 →
      lex_token (get_next_token ⟨'$' :: c :: ds ++ rest, 0⟩)
        = some (.hexa8 (hex_val (c :: ds))))
  ∧ (3 ≤ (c :: ds).length → (c :: ds).length ≤ 4 →
      lex_token (get_next_token ⟨'$' :: c :: ds ++ rest, 0⟩)
        = some (.hexa16 (hex_val (c :: ds))))
  ∧ (5 ≤ (c :: ds).length →
      lex_is_err (get_next_token ⟨'$' :: c :: ds ++ rest, 0⟩) = true) := by
  obtain ⟨p, hp⟩ := parse_if_after_sigil hex_digit c ds rest h1 h2 h3
  have hred : get_next_token ⟨'$' :: c :: ds ++ rest, 0⟩
      = match parse_hexa ('$' :: c :: ds ++ rest) 0 with
        | none => .crash
        | some (.ok t, p') => .ok t ⟨'$' :: c :: ds ++ rest, p' + 1⟩
        | some (.error m, p') => .err m ⟨'$' :: c :: ds ++ rest, p' + 1⟩ := rfl
  have hhx : parse_hexa ('$' :: c :: ds ++ rest) 0
      = if 1 ≤ (c :: ds).length ∧ (c :: ds).length ≤ 2 then
          some (.ok (.hexa8 (hex_val (c :: ds))), p)
        else if 3 ≤ (c :: ds).length ∧ (c :: ds).length ≤ 4 then
          some (.ok (.hexa16 (hex_val (c :: ds))), p)
        else
          some (.error ("Hexadecimal litteral has unexpected size : "
            ++ String.mk (c :: ds)), p) := by
    simp only [parse_hexa, Nat.zero_add, hp]
  have hlc : (c :: ds).length = ds.length + 1 := rfl
  refine ⟨?_, ?_, ?_⟩
  · intro hle
    rw [hred, hhx]
    have : 1 ≤ (c :: ds).length ∧ (c :: ds).length ≤ 2 := by omega
    rw [if_pos this]
    rfl
  · intro hge hle
    rw [hred, hhx]
    have hn : ¬(1 ≤ (c :: ds).length ∧ (c :: ds).length ≤ 2) := by omega
    rw [if_neg hn, if_pos ⟨hge, hle⟩]
    rfl
  · intro hge
    rw [hred, hhx]
    have hn : ¬(1 ≤ (c :: ds).length ∧ (c :: ds).length ≤ 2) := by omega
    have hn' : ¬(3 ≤ (c :: ds).length ∧ (c :: ds).length ≤ 4) := by omega
    rw [if_neg hn, if_neg hn']
    rfl

/-- Witness for C5 at the spec's own inputs: `$A0` (2 digits, 8-bit),
`$0BF1` (4 digits, 16-bit), and `$12345` (5 digits, lexical error). -/
theorem C5_hex_literal_width_by_digit_count_witness :
    lex_token (get_next_token ⟨'$' :: 'A' :: ['0'] ++ [], 0⟩)
      = some (.hexa8 (hex_val ('A' :: ['0'])))
  ∧ lex_token (get_next_token ⟨'$' :: '0' :: ['B', 'F', '1'] ++ [], 0⟩)
      = some (.hexa16 (hex_val ('0' :: ['B', 'F', '1'])))
  ∧ lex_is_err (get_next_token ⟨'$' :: '1' :: ['2', '3', '4', '5'] ++ [], 0⟩)
      = true := by
  refine ⟨?_, ?_, ?_⟩
  · exact (C5_hex_literal_width_by_digit_count 'A' ['0'] [] (by decide)
      (by decide) (by simp)).1 (by decide)
  · exact (C5_hex_literal_width_by_digit_count '0' ['B', 'F', '1'] [] (by decide)
      (by decide) (by simp)).2.1 (by decide) (by decide)
  · exact (C5_hex_literal_width_by_digit_count '1' ['2', '3', '4', '5'] []
      (by decide) (by decide) (by simp)).2.2 (by decide)

/-! ### Claim C2 -/

mutual

/-- The two passes advance their location counters in lock-step: whenever
both the indexer and the code generator successfully process the same AST
node starting from equal counters, they end with equal counters. -/
theorem pc_lockstep (iset : ISet) (labels : List (String × ℕ)) :
    ∀ (a : Ast) (lst : Linker) (ast : AsmSt),
    lst.program_counter = ast.program_counter →
    ∀ (lst' : Linker) (ast' : AsmSt),
    index iset a lst = some lst' → visit iset labels a ast = some ast' →
    lst'.program_counter = ast'.program_counter
  | .statements stmts, lst, ast, h, lst', ast', h1, h2 =>
    pc_lockstep_list iset labels stmts lst ast h lst' ast'
      (by simpa [index] using h1) (by simpa [visit] using h2)
  | .label l, lst, ast, h, lst', ast', h1, h2 => by
    simp only [index, Option.some.injEq] at h1
    simp only [visit, Option.some.injEq] at h2
    subst h1; subst h2
    exact h
  | .instruction i a, lst, ast, h, lst', ast', h1, h2 => by
    cases hm : get_addresing_mode a with
    | none => simp only [index, hm] at h1; exact Option.noConfusion h1
    | some m =>
      cases hi : iset i m with
      | none => simp only [index, hm, hi] at h1; exact Option.noConfusion h1
      | some instr =>
        cases hg : get_args_bytes labels a instr ast.program_counter with
        | none => simp only [visit, hm, hi, hg] at h2; exact Option.noConfusion h2
        | some arg =>
          simp only [index, hm, hi, Option.some.injEq] at h1
          simp only [visit, hm, hi, hg, Option.some.injEq] at h2
          subst h1; subst h2
          simp [h]
  | .number8 n, lst, ast, h, lst', ast', h1, h2 => by simp [visit] at h2
  | .absolute n, lst, ast, h, lst', ast', h1, h2 => by simp [visit] at h2
  | .zeroPage n, lst, ast, h, lst', ast', h1, h2 => by simp [visit] at h2
  | .absoluteIndirect n, lst, ast, h, lst', ast', h1, h2 => by simp [visit] at h2
  | .asoluteIndexed n r, lst, ast, h, lst', ast', h1, h2 => by simp [visit] at h2
  | .zeroPageIndexed n r, lst, ast, h, lst', ast', h1, h2 => by simp [visit] at h2
  | .indirectX n, lst, ast, h, lst', ast', h1, h2 => by simp [visit] at h2
  | .indirectY n, lst, ast, h, lst', ast', h1, h2 => by simp [visit] at h2
  | .accumulator, lst, ast, h, lst', ast', h1, h2 => by simp [visit] at h2

/-- List form of `pc_lockstep`, over a statement vector. -/
theorem pc_lockstep_list (iset : ISet) (labels : List (String × ℕ)) :
    ∀ (l : List Ast) (lst : Linker) (ast : AsmSt),
    lst.program_counter = ast.program_counter →
    ∀ (lst' : Linker) (ast' : AsmSt),
    index_list iset l lst = some lst' → visit_list iset labels l ast = some ast' →
    lst'.program_counter = ast'.program_counter
  | [], lst, ast, h, lst', ast', h1, h2 => by
    simp only [index_list, Option.some.injEq] at h1
    simp only [visit_list, Option.some.injEq] at h2
    subst h1; subst h2
    exact h
  | a :: as', lst, ast, h, lst', ast', h1, h2 => by
    simp only [index_list] at h1
    simp only [visit_list] at h2
    cases hia : index iset a lst with
    | none => rw [hia] at h1; cases h1
    | some lst1 =>
      rw [hia] at h1
      cases hva : visit iset labels a ast with
      | none => rw [hva] at h2; cases h2
      | some ast1 =>
        rw [hva] at h2
        have hmid := pc_lockstep iset labels a lst ast h lst1 ast1 hia hva
        exact pc_lockstep_list iset labels as' lst1 ast1 hmid lst' ast' h1 h2

end

/-- Claim C2: for every AST and every origin, when indexing and
code-generation (with the same instruction-set lookup) both succeed from the
same location-counter value, they end with equal location counters.  Since
the statement quantifies over an arbitrary common starting counter, applying
it to successive prefixes of a statement sequence shows the two counters
agree after every statement. -/
theorem C2_location_counters_lockstep (iset : ISet) (labels : List (String × ℕ))
    (a : Ast) (tbl : List (String × ℕ)) (prog : List ℕ) (pc : ℕ)
    (lst' : Linker) (ast' : AsmSt)
    (h1 : index iset a ⟨tbl, pc⟩ = some lst')
    (h2 : visit iset labels a ⟨prog, pc⟩ = some ast') :
    lst'.program_counter = ast'.program_counter :=
  pc_lockstep iset labels a ⟨tbl, pc⟩ ⟨prog, pc⟩ rfl lst' ast' h1 h2

/-- Witness for C2 on the program `l: BNE l` from origin `0x600`: both
passes end at counter `0x602`. -/
theorem C2_location_counters_lockstep_witness :
    (Linker.mk [("l", 0x600)] 0x602).program_counter
      = (AsmSt.mk [0xD0, 254] 0x602).program_counter :=
  C2_location_counters_lockstep iset0 [("l", 0x600)]
    (.statements [.label "l", .instruction "BNE" (some (.label "l"))])
    [] [] 0x600 ⟨[("l", 0x600)], 0x602⟩ ⟨[0xD0, 254], 0x602⟩ (by rfl) (by rfl)

/-! ### Claim C6 -/

mutual

/-- Indexing an AST that declares no `lbl` leaves the symbol-table binding of
`lbl` unchanged. -/
theorem index_keeps_lookup (iset : ISet) (lbl : String) :
    ∀ (a : Ast) (st st' : Linker), declares lbl a = false →
    index iset a st = some st' →
    st'.labels_indexes.lookup lbl = st.labels_indexes.lookup lbl
  | .statements stmts, st, st', h, hix =>
    index_list_keeps_lookup iset lbl stmts st st'
      (by simpa [declares] using h) (by simpa [index] using hix)
  | .label l, st, st', h, hix => by
    have hne : l ≠ lbl := by simpa [declares] using h
    have hb : (lbl == l) = false := beq_eq_false_iff_ne.mpr (Ne.symm hne)
    simp only [index, Option.some.injEq] at hix
    subst hix
    simp [List.lookup, hb]
  | .instruction i a, st, st', h, hix => by
    cases hm : get_addresing_mode a with
    | none => simp only [index, hm] at hix; exact Option.noConfusion hix
    | some m =>
      cases hi : iset i m with
      | none => simp only [index, hm, hi] at hix; exact Option.noConfusion hix
      | some instr =>
        simp only [index, hm, hi, Option.some.injEq] at hix
        subst hix
        rfl
  | .number8 n, st, st', h, hix => by
    simp only [index, Option.some.injEq] at hix; subst hix; rfl
  | .absolute n, st, st', h, hix => by
    simp only [index, Option.some.injEq] at hix; subst hix; rfl
  | .zeroPage n, st, st', h, hix => by
    simp only [index, Option.some.injEq] at hix; subst hix; rfl
  | .absoluteIndirect n, st, st', h, hix => by
    simp only [index, Option.some.injEq] at hix; subst hix; rfl
  | .asoluteIndexed n r, st, st', h, hix => by
    simp only [index, Option.some.injEq] at hix; subst hix; rfl
  | .zeroPageIndexed n r, st, st', h, hix => by
    simp only [index, Option.some.injEq] at hix; subst hix; rfl
  | .indirectX n, st, st', h, hix => by
    simp only [index, Option.some.injEq] at hix; subst hix; rfl
  | .indirectY n, st, st', h, hix => by
    simp only [index, Option.some.injEq] at hix; subst hix; rfl
  | .accumulator, st, st', h, hix => by
    simp only [index, Option.some.injEq] at hix; subst hix; rfl

/-- List form of `index_keeps_lookup`. -/
theorem index_list_keeps_lookup (iset : ISet) (lbl : String) :
    ∀ (l : List Ast) (st st' : Linker), declares_list lbl l = false →
    index_list iset l st = some st' →
    st'.labels_indexes.lookup lbl = st.labels_indexes.lookup lbl
  | [], st, st', h, hix => by
    simp only [index_list, Option.some.injEq] at hix; subst hix; rfl
  | a :: as', st, st', h, hix => by
    have hpair : declares lbl a = false ∧ declares_list lbl as' = false := by
      simpa [declares_list] using h
    simp only [index_list] at hix
    cases hia : index iset a st with
    | none => rw [hia] at hix; cases hix
    | some st1 =>
      rw [hia] at hix
      rw [index_list_keeps_lookup iset lbl as' st1 st' hpair.2 hix]
      exact index_keeps_lookup iset lbl a st st1 hpair.1 hia

end

/-- Indexing distributes over statement-list concatenation. -/
lemma index_list_append (iset : ISet) (xs ys : List Ast) :
    ∀ st, index_list iset (xs ++ ys) st
      = (index_list iset xs st).bind (fun st1 => index_list iset ys st1) := by
  induction xs with
  | nil => intro st; rfl
  | cons x xs' ih =>
    intro st
    cases hx : index iset x st with
    | none => simp [index_list, hx]
    | some st1 => simp [index_list, hx, ih st1]

/-- Claim C6: a label declaration always succeeds during indexing — there is
no redefinition error, the `HashMap` insert silently overwrites — and when
the same label is declared several times, the symbol table ends up binding
it to the location-counter value at its last declaration in statement order
(`s2` is the part of the program after the last declaration of `lbl`). -/
theorem C6_duplicate_labels_last_write_wins :
    (∀ (iset : ISet) (lbl : String) (st : Linker),
      index iset (.label lbl) st
        = some ⟨(lbl, st.program_counter) :: st.labels_indexes,
                st.program_counter⟩)
  ∧ (∀ (iset : ISet) (lbl : String) (s1 s2 : List Ast) (st st1 st' : Linker),
      index_list iset s1 st = some st1 →
      index_list iset (s1 ++ .label lbl :: s2) st = some st' →
      declares_list lbl s2 = false →
      st'.labels_indexes.lookup lbl = some st1.program_counter) := by
  constructor
  · intro iset lbl st; rfl
  · intro iset lbl s1 s2 st st1 st' h1 h2 hd
    rw [index_list_append iset s1 (.label lbl :: s2) st, h1] at h2
    simp only [Option.some_bind] at h2
    have hstep : index iset (.label lbl) st1
        = some ⟨(lbl, st1.program_counter) :: st1.labels_indexes,
                st1.program_counter⟩ := rfl
    simp only [index_list, hstep] at h2
    rw [index_list_keeps_lookup iset lbl s2 _ st' hd h2]
    simp [List.lookup]

/-- Witness for C6 on the program `l: NOP  l: NOP` from origin 0: the final
binding of `l` is the counter value 1 at the second declaration, overwriting
the earlier binding 0. -/
theorem C6_duplicate_labels_last_write_wins_witness :
    index iset0 (.label "dup") ⟨[("x", 7)], 3⟩
      = some ⟨[("dup", 3), ("x", 7)], 3⟩
  ∧ (Linker.mk [("l", 1), ("l", 0)] 1).labels_indexes.lookup "l" = some 1 := by
  constructor
  · exact C6_duplicate_labels_last_write_wins.1 iset0 "dup" ⟨[("x", 7)], 3⟩
  · exact C6_duplicate_labels_last_write_wins.2 iset0 "l"
      [.label "l", .instruction "NOP" none] [] ⟨[], 0⟩ ⟨[("l", 0)], 1⟩
      ⟨[("l", 1), ("l", 0)], 1⟩ (by rfl) (by rfl) (by rfl)

/-! ### Regression checks: concrete runs of the embedded parser, mirroring
the shapes exercised by the unit test of parser.rs -/
example : parse_tokens [.symbol .newLine, .eof] = none := by rfl
example : parse_tokens [.symbol .semiColon, .symbol .newLine, .text "NOP", .eof]
    = some [.instruction "NOP" none] := by rfl
example : parse_tokens [.text "NOP", .symbol .newLine, .eof] = none := by rfl
example : parse_tokens [.text "lbl", .symbol .colon, .symbol .newLine,
    .text "JMP", .text "lbl", .eof]
    = some [.label "lbl", .instruction "JMP" (some (.label "lbl"))] := by rfl
example : (label ⟨.text "A", []⟩) = some (.accumulator, ⟨.eof, []⟩) := by rfl
example : (arg ⟨.text "a", [.eof]⟩) = some (.accumulator, ⟨.eof, []⟩) := by rfl
example : parse_tokens [.text "STA", .symbol .lpar, .hexa8 0xAA, .symbol .coma,
    .text "X", .symbol .rpar, .eof]
    = some [.instruction "STA" (some (.indirectX 0xAA))] := by rfl

/-! ### Regression checks: concrete runs of the embedded lexer, mirroring
the unit tests of lexer.rs (plus the out-of-bounds cases) -/
example : lex_token (get_next_token ⟨"$A0".toList, 0⟩) = some (.hexa8 0xA0) := by decide
example : lex_token (get_next_token ⟨"$0BF1".toList, 0⟩) = some (.hexa16 0x0BF1) := by decide
example : lex_is_err (get_next_token ⟨"$0B5F1".toList, 0⟩) = true := by decide
example : lex_token (get_next_token ⟨"%101101".toList, 0⟩) = some (.binary 45) := by decide
example : lex_token (get_next_token ⟨"123".toList, 0⟩) = some (.decimal 123) := by decide
example : lex_token (get_next_token ⟨"myLabel".toList, 0⟩) = some (.text "myLabel") := by decide
example : get_next_token ⟨" ".toList, 0⟩ = .crash := by decide
example : get_next_token ⟨"$".toList, 0⟩ = .crash := by decide
example : get_next_token ⟨"%".toList, 0⟩ = .crash := by decide
example : lex_token (get_next_token ⟨";a comment".toList, 0⟩) = some (.symbol .semiColon) := by decide

end Asm6502
